import Mathlib

/-!
Verification of the bookmark-scraper pipeline: a shallow embedding of the
functions of twitter_bookmark_scrapper.py (URL helpers, the per-item
parser, the scroll-collection loop, the link resolver, row building and
the JSONL export encoding), together with theorems settling the claims
about them.  Browser and network effects are modelled by explicit
parameters: the feed a scroll pass presents, the redirect lookup as a
fallible function, and the auxiliary-view steps of the article fetcher
as fallible steps.
-/

namespace TwitterScraper

/-- Python substring containment, the operator used as needle in s. -/
def containsSub (needle s : String) : Bool := decide (needle.data <:+: s.data)

/-- Python endswith on strings: suffix test on the character sequence. -/
def pyEndsWith (s suf : String) : Bool := decide (suf.data <:+ s.data)

/-- Python lower() as exercised here (ASCII hostnames). -/
def pyLower (s : String) : String := ⟨s.data.map Char.toLower⟩

/-- The characters CPython urlsplit allows inside a URL scheme. -/
def schemeChars : List Char :=
  "abcdefghijklmnopqrstuvwxyzABCDEFGHIJKLMNOPQRSTUVWXYZ0123456789+-.".data

/-- CPython urlsplit scheme removal: when a colon is preceded by an
alphabetic first character and scheme characters only, everything up to
and including the colon is dropped. -/
def splitScheme (cs : List Char) : List Char :=
  match cs.findIdx? (fun c => c == Char.ofNat 58) with
  | none => cs
  | some i =>
    if 0 < i ∧ (cs.headD ' ').isAlpha ∧ (cs.take i).all (fun c => schemeChars.contains c) then
      cs.drop (i + 1)
    else cs

/-- Characters that terminate the netloc in CPython urlsplit. -/
def netlocEnd (c : Char) : Bool := c == '/' || c == Char.ofNat 63 || c == Char.ofNat 35

/-- netloc of urlparse: present only when a double slash follows the
scheme, and runs to the first slash, question mark or hash. -/
def urlNetloc (url : String) : String :=
  let rest := splitScheme url.data
  if rest.take 2 = ['/', '/'] then ⟨(rest.drop 2).takeWhile (fun c => !netlocEnd c)⟩
  else ""

/-- path of urlparse: what follows the netloc, with the fragment and then
the query split off. -/
def urlPath (url : String) : String :=
  let rest := splitScheme url.data
  let rest2 :=
    if rest.take 2 = ['/', '/'] then (rest.drop 2).dropWhile (fun c => !netlocEnd c) else rest
  ⟨(rest2.takeWhile (fun c => c != Char.ofNat 35)).takeWhile (fun c => c != Char.ofNat 63)⟩

/-- is_article_url from the source: the path must contain /articles/ and
the lowercased netloc must end with x.com or twitter.com. -/
def is_article_url (url : String) : Bool :=
  containsSub "/articles/" (urlPath url) &&
    (pyEndsWith (pyLower (urlNetloc url)) "x.com" ||
      pyEndsWith (pyLower (urlNetloc url)) "twitter.com")

/-- ASCII whitespace as matched by the regex class backslash-s. -/
def pySpace (c : Char) : Bool :=
  c == ' ' || c == Char.ofNat 9 || c == Char.ofNat 10 || c == Char.ofNat 13 ||
    c == Char.ofNat 11 || c == Char.ofNat 12

/-- Characters admitted by the negated class of the body-text URL regex:
everything except whitespace, double quote, single quote, the angle
brackets and a closing parenthesis. -/
def urlBodyChar (c : Char) : Bool :=
  !(pySpace c || c == Char.ofNat 34 || c == Char.ofNat 39 || c == Char.ofNat 60 ||
    c == Char.ofNat 62 || c == Char.ofNat 41)

/-- One attempt of the body-text URL regex at the current position:
http, an optional s, the separator, then a nonempty greedy run of
admitted characters.  Returns the match and the rest of the input. -/
def matchURL (cs : List Char) : Option (List Char × List Char) :=
  match cs with
  | 'h' :: 't' :: 't' :: 'p' :: rest =>
    let pr : List Char × List Char :=
      match rest with
      | 's' :: r2 => (['h', 't', 't', 'p', 's'], r2)
      | _ => (['h', 't', 't', 'p'], rest)
    match pr.2 with
    | ':' :: '/' :: '/' :: r3 =>
      let body := r3.takeWhile urlBodyChar
      if body.isEmpty then none
      else some (pr.1 ++ ':' :: '/' :: '/' :: body, r3.drop body.length)
    | _ => none
  | _ => none

/-- Left-to-right non-overlapping scan of re.findall; the fuel is the
input length, which bounds the number of steps since every step consumes
at least one character. -/
def findURLsAux : Nat → List Char → List (List Char)
  | 0, _ => []
  | _ + 1, [] => []
  | fuel + 1, c :: rest =>
    match matchURL (c :: rest) with
    | some p => p.1 :: findURLsAux fuel p.2
    | none => findURLsAux fuel rest

/-- All matches of the body-text URL regex over the tweet text. -/
def findURLs (text : String) : List String :=
  (findURLsAux text.data.length text.data).map (fun l => ⟨l⟩)

/-- Lexicographic code-point comparison of character sequences, the
order Python uses to compare strings. -/
def charListLe : List Char → List Char → Bool
  | [], _ => true
  | _ :: _, [] => false
  | a :: as, b :: bs =>
    if a.toNat < b.toNat then true
    else if a.toNat = b.toNat then charListLe as bs
    else false

/-- Python string comparison by code points. -/
def strLe (a b : String) : Bool := charListLe a.data b.data

/-- Python sorted() on strings: ascending by code point. -/
def sortStrings (l : List String) : List String :=
  List.insertionSort (fun a b => strLe a b = true) l

/-- Python slicing s[:n] by characters. -/
def pyTake (s : String) (n : Nat) : String := ⟨s.data.take n⟩

/-- Python replace of each newline by a space (a one-character pattern,
so a character map). -/
def pyReplaceNL (s : String) : String :=
  ⟨s.data.map (fun c => if c == Char.ofNat 10 then ' ' else c)⟩

/-- Python strip() over the whitespace the texts here contain. -/
def pyStrip (s : String) : String :=
  ⟨((s.data.dropWhile pySpace).reverse.dropWhile pySpace).reverse⟩

/-- Python strip with a slash argument: remove leading and trailing
slashes. -/
def pyStripSlashes (s : String) : String :=
  ⟨((s.data.dropWhile (fun c => c == '/')).reverse.dropWhile (fun c => c == '/')).reverse⟩

/-- Word characters of the regex class backslash-w (ASCII range). -/
def wordChar (c : Char) : Bool := c.isAlphanum || c == '_'

/-- One attempt of the image-size regex: an ampersand or question mark,
the literal name=, then a nonempty run of word characters. -/
def matchNameParam : List Char → Option (List Char)
  | c :: 'n' :: 'a' :: 'm' :: 'e' :: '=' :: r =>
    if c == '&' || c == Char.ofNat 63 then
      let w := r.takeWhile wordChar
      if w.isEmpty then none else some (r.drop w.length)
    else none
  | _ => none

/-- Deletion of every match of the image-size regex, scanning left to
right; non-matching characters are kept. -/
def subNameAux : Nat → List Char → List Char
  | 0, cs => cs
  | _ + 1, [] => []
  | fuel + 1, c :: rest =>
    match matchNameParam (c :: rest) with
    | some remaining => subNameAux fuel remaining
    | none => c :: subNameAux fuel rest

/-- re.sub of the image-size query parameter with the empty string. -/
def subNameParam (src : String) : String := ⟨subNameAux src.data.length src.data⟩

/-- The DOM facts _parse_tweet reads off one feed-item element.  An
absent element is none; attribute reads that the code defaults with
or-empty are folded to the defaulted string.  The datetime attribute of
the time element is kept fallible because the code keeps its None. -/
structure ArtElem where
  handle_el : Option String
  name_el : Option String
  text_el : Option String
  time_el : Option (Option String)
  time_anchor : String
  anchors : List String
  images : List String
deriving DecidableEq, Inhabited, Repr

/-- One collected bookmark record, the dict _parse_tweet returns. -/
structure Tweet where
  timestamp : Option String
  author_name : String
  author_handle : String
  text : String
  tweet_url : String
  article_url : String
  article_text : String
  image_urls : List String
  urls_raw : List String
deriving DecidableEq, Inhabited, Repr

/-- The elif condition admitting an anchor href into raw_urls: a t.co
substring, or a netloc that is neither x.com nor twitter.com. -/
def anchorRaw (href : String) : Bool :=
  containsSub "t.co" href ||
    !(pyLower (urlNetloc href) == "x.com" || pyLower (urlNetloc href) == "twitter.com")

/-- The anchor loop of _parse_tweet: the first article link wins and
later article links are dropped; other qualifying hrefs accumulate into
the raw set. -/
def anchorScan : List String → String → List String → String × List String
  | [], articleUrl, raws => (articleUrl, raws)
  | href :: rest, articleUrl, raws =>
    if is_article_url href then
      anchorScan rest (if articleUrl = "" then href else articleUrl) raws
    else if anchorRaw href then anchorScan rest articleUrl (raws ++ [href])
    else anchorScan rest articleUrl raws

/-- The image loop of _parse_tweet: keep nonempty media sources, strip
the size parameter and request the original resolution. -/
def processImages (srcs : List String) : List String :=
  srcs.filterMap (fun src =>
    if src != "" && containsSub "pbs.twimg.com/media" src then
      some (subNameParam src ++ "?name=orig")
    else none)

/-- _parse_tweet from the source, as a pure function of the element
facts. -/
def _parse_tweet (e : ArtElem) : Tweet :=
  let handle := match e.handle_el with
    | none => ""
    | some h => pyStripSlashes h
  let text := e.text_el.getD ""
  let scanned := anchorScan e.anchors "" []
  { timestamp := match e.time_el with
      | none => some ""
      | some attr => attr
    author_name := e.name_el.getD ""
    author_handle := if handle = "" then "" else "@" ++ handle
    text := pyStrip (pyReplaceNL text)
    tweet_url := match e.time_el with
      | none => ""
      | some _ => e.time_anchor
    article_url := scanned.1
    article_text := ""
    image_urls := processImages e.images
    urls_raw := sortStrings ((findURLs text ++ scanned.2).dedup) }

/-- The dedup key of collect_bookmarks: the tweet permalink when it is
nonempty (Python truthiness of the or), otherwise the first eighty
characters of the normalized text. -/
def dedupKey (t : Tweet) : String := if t.tweet_url = "" then pyTake t.text 80 else t.tweet_url

/-- The state the scroll loop threads: the collected records and the
seen-id set (modelled as the list of inserted keys). -/
structure LoopState where
  bookmarks : List Tweet
  seen_ids : List String
deriving Repr

/-- One scroll pass over the currently rendered feed items: a none item
is one whose parse raised and is skipped; a parsed tweet is skipped when
its key has been seen, otherwise appended with its key recorded.  Also
returns the new-this-round count. -/
def processPass : List (Option ArtElem) → LoopState → LoopState × Nat
  | [], st => (st, 0)
  | none :: rest, st => processPass rest st
  | some e :: rest, st =>
    let t := _parse_tweet e
    if dedupKey t ∈ st.seen_ids then processPass rest st
    else
      let r := processPass rest ⟨st.bookmarks ++ [t], dedupKey t :: st.seen_ids⟩
      (r.1, r.2 + 1)

/-- The scroll loop of collect_bookmarks.  feed gives the items rendered
at each pass, cancel the stop flag observed at the top of each pass.
Arguments: current pass index, remaining range of the for loop, the
no-new counter, the state.  Returns the final state and the index of
the last pass the loop ran (the pass it exited at). -/
def scrollLoopAux (feed : Nat → List (Option ArtElem)) (cancel : Nat → Bool) :
    Nat → Nat → Nat → LoopState → LoopState × Nat
  | idx, 0, _, st => (st, idx - 1)
  | idx, r + 1, noNew, st =>
    if cancel idx then (st, idx - 1)
    else
      let p := processPass (feed idx) st
      if p.2 ≠ 0 then scrollLoopAux feed cancel (idx + 1) r 0 p.1
      else if noNew + 1 ≥ 5 then (p.1, idx)
      else scrollLoopAux feed cancel (idx + 1) r (noNew + 1) p.1

/-- The scroll loop started as in the source: pass indices one to
max_scrolls, counter zero, nothing collected. -/
def scrollLoop (feed : Nat → List (Option ArtElem)) (cancel : Nat → Bool)
    (max_scrolls : Nat) : LoopState × Nat :=
  scrollLoopAux feed cancel 1 max_scrolls 0 ⟨[], []⟩

/-- The article phase of collect_bookmarks: when article fetching is on
and the stop flag is clear, each record with a nonempty article_url gets
its article_text populated from the fetcher; nothing else changes. -/
def applyArticles (fetchFn : String → String) (no_articles stopped : Bool)
    (bs : List Tweet) : List Tweet :=
  if no_articles = false ∧ stopped = false then
    bs.map (fun b =>
      if b.article_url ≠ "" then { b with article_text := fetchFn b.article_url } else b)
  else bs

/-- collect_bookmarks: initFail covers the early returns before the
scroll loop (login redirect, content-wait timeout), which yield the
empty list; otherwise the scroll loop runs and the article phase is
applied to its bookmarks.  stoppedAfter is the stop-flag value the
article phase observes. -/
def collect_bookmarks (feed : Nat → List (Option ArtElem)) (cancel : Nat → Bool)
    (max_scrolls : Nat) (no_articles stoppedAfter : Bool) (fetchFn : String → String)
    (initFail : Bool) : List Tweet :=
  if initFail then []
  else applyArticles fetchFn no_articles stoppedAfter (scrollLoop feed cancel max_scrolls).1.bookmarks

/-- Invariant of the collection state: the collected records have
pairwise distinct dedup keys, and every collected key is in the seen-id
set. -/
def GoodState (st : LoopState) : Prop :=
  (st.bookmarks.map dedupKey).Nodup ∧ ∀ t ∈ st.bookmarks, dedupKey t ∈ st.seen_ids

theorem goodState_nil : GoodState ⟨[], []⟩ := by
  constructor
  · simp
  · intro t ht; simp at ht

theorem processPass_good (items : List (Option ArtElem)) (st : LoopState)
    (h : GoodState st) : GoodState (processPass items st).1 := by
  induction items generalizing st with
  | nil => exact h
  | cons o rest ih =>
    cases o with
    | none => exact ih st h
    | some e =>
      simp only [processPass]
      by_cases hmem : dedupKey (_parse_tweet e) ∈ st.seen_ids
      · rw [if_pos hmem]; exact ih st h
      · rw [if_neg hmem]
        refine ih _ ⟨?_, ?_⟩
        · simp only [List.map_append, List.map_cons, List.map_nil, List.nodup_append]
          refine ⟨h.1, by simp, ?_⟩
          intro k hk hk1
          simp only [List.mem_singleton] at hk1
          rcases List.mem_map.mp hk with ⟨t, ht, rfl⟩
          exact hmem (hk1 ▸ h.2 t ht)
        · intro t ht
          rcases List.mem_append.mp ht with h1 | h1
          · exact List.mem_cons_of_mem _ (h.2 t h1)
          · simp only [List.mem_singleton] at h1
            subst h1; exact List.mem_cons_self _ _

theorem processPass_article (items : List (Option ArtElem)) (st : LoopState)
    (h : ∀ t ∈ st.bookmarks, t.article_text = "") :
    ∀ t ∈ (processPass items st).1.bookmarks, t.article_text = "" := by
  induction items generalizing st with
  | nil => exact h
  | cons o rest ih =>
    cases o with
    | none => exact ih st h
    | some e =>
      simp only [processPass]
      by_cases hmem : dedupKey (_parse_tweet e) ∈ st.seen_ids
      · rw [if_pos hmem]; exact ih st h
      · rw [if_neg hmem]
        refine ih _ ?_
        intro t ht
        rcases List.mem_append.mp ht with h1 | h1
        · exact h t h1
        · simp only [List.mem_singleton] at h1
          subst h1; rfl

theorem scrollLoopAux_good (feed : Nat → List (Option ArtElem)) (cancel : Nat → Bool)
    (r : Nat) : ∀ idx noNew st, GoodState st →
    GoodState (scrollLoopAux feed cancel idx r noNew st).1 := by
  induction r with
  | zero => intro idx noNew st h; exact h
  | succ r ih =>
    intro idx noNew st h
    simp only [scrollLoopAux]
    by_cases hc : cancel idx
    · rw [if_pos hc]; exact h
    · rw [if_neg hc]
      have hg := processPass_good (feed idx) st h
      by_cases hn : (processPass (feed idx) st).2 ≠ 0
      · rw [if_pos hn]; exact ih _ _ _ hg
      · rw [if_neg hn]
        by_cases h5 : noNew + 1 ≥ 5
        · rw [if_pos h5]; exact hg
        · rw [if_neg h5]; exact ih _ _ _ hg

theorem scrollLoopAux_article (feed : Nat → List (Option ArtElem)) (cancel : Nat → Bool)
    (r : Nat) : ∀ idx noNew st, (∀ t ∈ st.bookmarks, t.article_text = "") →
    ∀ t ∈ (scrollLoopAux feed cancel idx r noNew st).1.bookmarks, t.article_text = "" := by
  induction r with
  | zero => intro idx noNew st h; exact h
  | succ r ih =>
    intro idx noNew st h
    simp only [scrollLoopAux]
    by_cases hc : cancel idx
    · rw [if_pos hc]; exact h
    · rw [if_neg hc]
      have hg := processPass_article (feed idx) st h
      by_cases hn : (processPass (feed idx) st).2 ≠ 0
      · rw [if_pos hn]; exact ih _ _ _ hg
      · rw [if_neg hn]
        by_cases h5 : noNew + 1 ≥ 5
        · rw [if_pos h5]; exact hg
        · rw [if_neg h5]; exact ih _ _ _ hg

theorem scrollLoop_good (feed : Nat → List (Option ArtElem)) (cancel : Nat → Bool)
    (max_scrolls : Nat) : GoodState (scrollLoop feed cancel max_scrolls).1 :=
  scrollLoopAux_good feed cancel max_scrolls 1 0 _ goodState_nil

/-- The article phase changes no dedup key: it rewrites article_text
only, and the key reads tweet_url and text. -/
theorem applyArticles_map_dedupKey (fetchFn : String → String) (no_articles stopped : Bool)
    (bs : List Tweet) :
    (applyArticles fetchFn no_articles stopped bs).map dedupKey = bs.map dedupKey := by
  unfold applyArticles
  split
  · rw [List.map_map]
    refine List.map_congr_left ?_
    intro b _
    by_cases h : b.article_url ≠ ""
    · simp only [Function.comp_apply, if_pos h, dedupKey]
    · simp only [Function.comp_apply, if_neg h]
  · rfl

/-- Keys of the final collection are pairwise distinct. -/
theorem collect_bookmarks_keys_nodup (feed : Nat → List (Option ArtElem))
    (cancel : Nat → Bool) (max_scrolls : Nat) (no_articles stoppedAfter : Bool)
    (fetchFn : String → String) (initFail : Bool) :
    ((collect_bookmarks feed cancel max_scrolls no_articles stoppedAfter fetchFn
      initFail).map dedupKey).Nodup := by
  unfold collect_bookmarks
  split
  · simp
  · rw [applyArticles_map_dedupKey]
    exact (scrollLoop_good feed cancel max_scrolls).1

/-- The constantly-clear stop flag: a run with no cancellation. -/
def noCancel : Nat → Bool := fun _ => false

/-- A feed element carrying only a name (parses to empty url and empty
text). -/
def elemNamed (nm : String) : ArtElem :=
  ⟨none, some nm, none, none, "", [], []⟩

/-- A feed element carrying only body text (parses to empty url). -/
def elemText (s : String) : ArtElem :=
  ⟨none, none, some s, none, "", [], []⟩

/-- A feed presenting two distinct empty-url records in pass one. -/
def feedTwoTexts : Nat → List (Option ArtElem) := fun i =>
  if i = 1 then [some (elemText "alpha"), some (elemText "beta")] else []

/-- A feed presenting two records with empty url and empty text in pass
one. -/
def feedNoKey : Nat → List (Option ArtElem) := fun i =>
  if i = 1 then [some (elemNamed "a"), some (elemNamed "b")] else []

/-- C1: whatever overlapping item sets the scroll passes present, the
sequence collect_bookmarks returns contains no two records with the same
nonempty tweet_url: if two positions carry equal permalinks, that
permalink is the empty string. -/
theorem collect_bookmarks_no_dup_tweet_url
    (feed : Nat → List (Option ArtElem)) (cancel : Nat → Bool) (max_scrolls : Nat)
    (no_articles stoppedAfter : Bool) (fetchFn : String → String) (initFail : Bool)
    (bs : List Tweet)
    (hbs : bs = collect_bookmarks feed cancel max_scrolls no_articles stoppedAfter fetchFn
      initFail)
    (i j : Nat) (hi : i < bs.length) (hj : j < bs.length) (hij : i ≠ j)
    (heq : (bs.getD i default).tweet_url = (bs.getD j default).tweet_url) :
    (bs.getD i default).tweet_url = "" := by
  by_contra hne
  rw [List.getD_eq_getElem bs default hi] at heq hne
  rw [List.getD_eq_getElem bs default hj] at heq
  have hnodup : (bs.map dedupKey).Nodup := by
    rw [hbs]
    exact collect_bookmarks_keys_nodup feed cancel max_scrolls no_articles stoppedAfter
      fetchFn initFail
  have hki : dedupKey bs[i] = bs[i].tweet_url := by rw [dedupKey, if_neg hne]
  have hnej : ¬(bs[j].tweet_url = "") := fun h => hne (heq.trans h)
  have hkj : dedupKey bs[j] = bs[j].tweet_url := by rw [dedupKey, if_neg hnej]
  have hmi : i < (bs.map dedupKey).length := by simpa using hi
  have hmj : j < (bs.map dedupKey).length := by simpa using hj
  have hkeq : (bs.map dedupKey)[i] = (bs.map dedupKey)[j] := by
    rw [List.getElem_map, List.getElem_map, hki, hkj]
    exact heq
  exact hij ((hnodup.getElem_inj_iff).mp hkeq)

/-- Witness for C1: a concrete run whose result holds two records, both
with empty permalinks; the theorem applies at positions zero and one. -/
theorem collect_bookmarks_no_dup_tweet_url_witness :
    ((collect_bookmarks feedTwoTexts noCancel 3 true false (fun _ => "") false).getD 0
      default).tweet_url = "" :=
  collect_bookmarks_no_dup_tweet_url feedTwoTexts noCancel 3 true false (fun _ => "")
    false _ rfl 0 1 (by decide) (by decide) (by decide) (by decide)

/-- C3 (amended): a record with empty tweet_url is deduplicated by the
first eighty characters of its text, including the degenerate case of
empty text, whose key is the empty string: two result positions with
empty tweet_url and equal eighty-character text prefixes coincide.  (The
original claim that a record with empty tweet_url and empty text is
never considered seen-before is false: its key is the empty string,
which enters the seen-id set like any other key.) -/
theorem collect_bookmarks_empty_url_dedup
    (feed : Nat → List (Option ArtElem)) (cancel : Nat → Bool) (max_scrolls : Nat)
    (no_articles stoppedAfter : Bool) (fetchFn : String → String) (initFail : Bool)
    (bs : List Tweet)
    (hbs : bs = collect_bookmarks feed cancel max_scrolls no_articles stoppedAfter fetchFn
      initFail)
    (i j : Nat) (hi : i < bs.length) (hj : j < bs.length)
    (hui : (bs.getD i default).tweet_url = "") (huj : (bs.getD j default).tweet_url = "")
    (ht : pyTake (bs.getD i default).text 80 = pyTake (bs.getD j default).text 80) :
    i = j := by
  rw [List.getD_eq_getElem bs default hi] at hui ht
  rw [List.getD_eq_getElem bs default hj] at huj ht
  have hnodup : (bs.map dedupKey).Nodup := by
    rw [hbs]
    exact collect_bookmarks_keys_nodup feed cancel max_scrolls no_articles stoppedAfter
      fetchFn initFail
  have hki : dedupKey bs[i] = pyTake bs[i].text 80 := by rw [dedupKey, if_pos hui]
  have hkj : dedupKey bs[j] = pyTake bs[j].text 80 := by rw [dedupKey, if_pos huj]
  have hmi : i < (bs.map dedupKey).length := by simpa using hi
  have hmj : j < (bs.map dedupKey).length := by simpa using hj
  have hkeq : (bs.map dedupKey)[i] = (bs.map dedupKey)[j] := by
    rw [List.getElem_map, List.getElem_map, hki, hkj]
    exact ht
  exact (hnodup.getElem_inj_iff).mp hkeq

/-- Witness for C3 (amended) at a concrete run with an empty-url
record at position zero. -/
theorem collect_bookmarks_empty_url_dedup_witness :
    ((collect_bookmarks feedTwoTexts noCancel 3 true false (fun _ => "") false).getD 0
      default).tweet_url = "" ∧ (0 : Nat) = 0 :=
  ⟨by decide,
    collect_bookmarks_empty_url_dedup feedTwoTexts noCancel 3 true false (fun _ => "")
      false _ rfl 0 0 (by decide) (by decide) (by decide) (by decide) rfl⟩

/-- C3 counterexample: pass one presents two parseable records, both
with empty tweet_url and empty text; the run keeps only one of them —
the second is skipped as seen-before through the shared empty-string
key, refuting the claim that such records are never deduplicated. -/
theorem collect_bookmarks_empty_key_dedups :
    some (elemNamed "b") ∈ feedNoKey 1 ∧
    (_parse_tweet (elemNamed "b")).tweet_url = "" ∧
    (_parse_tweet (elemNamed "b")).text = "" ∧
    (collect_bookmarks feedNoKey noCancel 3 true false (fun _ => "") false).length = 1 ∧
    _parse_tweet (elemNamed "b") ∉
      collect_bookmarks feedNoKey noCancel 3 true false (fun _ => "") false := by
  decide

/-- The collection state after unconditionally processing passes one
through n of the feed. -/
def stateAfter (feed : Nat → List (Option ArtElem)) : Nat → LoopState
  | 0 => ⟨[], []⟩
  | n + 1 => (processPass (feed (n + 1)) (stateAfter feed n)).1

/-- The new-this-round count a pass yields against the state left by the
passes before it: pass i produces a previously-unseen item exactly when
newAt feed i is nonzero. -/
def newAt (feed : Nat → List (Option ArtElem)) : Nat → Nat
  | 0 => 0
  | n + 1 => (processPass (feed (n + 1)) (stateAfter feed n)).2

theorem scrollLoopAux_through_new (feed : Nat → List (Option ArtElem))
    (max_scrolls k : Nat) (hmax : k ≤ max_scrolls)
    (hnew : ∀ i, 1 ≤ i → i ≤ k → newAt feed i ≠ 0) :
    ∀ d i, i + d = k →
      scrollLoopAux feed noCancel (i + 1) (max_scrolls - i) 0 (stateAfter feed i) =
      scrollLoopAux feed noCancel (k + 1) (max_scrolls - k) 0 (stateAfter feed k) := by
  intro d
  induction d with
  | zero => intro i hi; rw [Nat.add_zero] at hi; rw [hi]
  | succ d ih =>
    intro i hi
    have hik : i < k := by omega
    obtain ⟨r, hr⟩ : ∃ r, max_scrolls - i = r + 1 := ⟨max_scrolls - (i + 1), by omega⟩
    rw [hr]
    simp only [scrollLoopAux, noCancel]
    rw [if_neg (by simp)]
    have hp2 : (processPass (feed (i + 1)) (stateAfter feed i)).2 ≠ 0 :=
      hnew (i + 1) (by omega) (by omega)
    rw [if_pos hp2]
    have hst : (processPass (feed (i + 1)) (stateAfter feed i)).1 = stateAfter feed (i + 1) :=
      rfl
    rw [hst]
    have hr2 : r = max_scrolls - (i + 1) := by omega
    rw [hr2]
    exact ih (i + 1) (by omega)

theorem scrollLoopAux_stale_run (feed : Nat → List (Option ArtElem)) (k : Nat)
    (hstale : ∀ i, k < i → newAt feed i = 0) :
    ∀ r c i, i = k + c → c ≤ 4 → 5 ≤ r + c →
      (scrollLoopAux feed noCancel (i + 1) r c (stateAfter feed i)).2 = k + 5 := by
  intro r
  induction r with
  | zero => intro c i _ hc hr; omega
  | succ r ih =>
    intro c i hi hc hr
    simp only [scrollLoopAux, noCancel]
    rw [if_neg (by simp)]
    have hp2 : ¬((processPass (feed (i + 1)) (stateAfter feed i)).2 ≠ 0) := by
      have := hstale (i + 1) (by omega)
      simp only [newAt] at this
      simp [this]
    rw [if_neg hp2]
    by_cases h5 : c + 1 ≥ 5
    · rw [if_pos h5]
      omega
    · rw [if_neg h5]
      have hst : (processPass (feed (i + 1)) (stateAfter feed i)).1 = stateAfter feed (i + 1) :=
        rfl
      rw [hst]
      exact ih (c + 1) (i + 1) (by omega) (by omega) (by omega)

/-- C2: when every pass up to k yields a previously-unseen item and the
feed stops producing unseen items after pass k, the scroll loop of
collect_bookmarks exits at pass k plus five — the stale counter rises on
each empty pass, resets on a productive one, and hits its threshold five
passes after k — however large max_scrolls is. -/
theorem scrollLoop_exhaustion (feed : Nat → List (Option ArtElem)) (k max_scrolls : Nat)
    (hmax : k + 5 ≤ max_scrolls)
    (hnew : ∀ i, 1 ≤ i → i ≤ k → newAt feed i ≠ 0)
    (hstale : ∀ i, k < i → newAt feed i = 0) :
    (scrollLoop feed noCancel max_scrolls).2 = k + 5 := by
  have h0 : scrollLoop feed noCancel max_scrolls =
      scrollLoopAux feed noCancel (0 + 1) (max_scrolls - 0) 0 (stateAfter feed 0) := rfl
  rw [h0, scrollLoopAux_through_new feed max_scrolls k (by omega) hnew k 0 (by omega)]
  exact scrollLoopAux_stale_run feed k hstale (max_scrolls - k) 0 k rfl (by omega)
    (by omega)

/-- A feed element whose parse yields the given permalink. -/
def elemUrl (u : String) : ArtElem :=
  ⟨none, none, none, some (some "t"), u, [], []⟩

/-- A feed with one fresh item at pass one and another at pass two,
nothing new afterwards. -/
def feedTwoPasses : Nat → List (Option ArtElem) := fun i =>
  if i = 1 then [some (elemUrl "https://a/1")]
  else if i = 2 then [some (elemUrl "https://a/2")]
  else []

/-- Witness for C2: the concrete two-pass feed under a generous
max_scrolls of fifty exits the loop at pass seven. -/
theorem scrollLoop_exhaustion_witness :
    (scrollLoop feedTwoPasses noCancel 50).2 = 2 + 5 := by
  refine scrollLoop_exhaustion feedTwoPasses 2 50 (by decide) ?_ ?_
  · intro i h1 h2
    match i with
    | 1 => decide
    | 2 => decide
  · intro i hi
    match i, hi with
    | n + 3, _ =>
      have hf : feedTwoPasses (n + 3) = [] := by
        simp only [feedTwoPasses]
        rw [if_neg (by omega), if_neg (by omega)]
      simp only [newAt, hf, processPass]

/-- Agreement of two records on every field except article_text. -/
def EqExceptArticleText (a b : Tweet) : Prop :=
  a.timestamp = b.timestamp ∧ a.author_name = b.author_name ∧
    a.author_handle = b.author_handle ∧ a.text = b.text ∧ a.tweet_url = b.tweet_url ∧
    a.article_url = b.article_url ∧ a.image_urls = b.image_urls ∧ a.urls_raw = b.urls_raw

theorem scrollLoop_article (feed : Nat → List (Option ArtElem)) (cancel : Nat → Bool)
    (max_scrolls : Nat) :
    ∀ t ∈ (scrollLoop feed cancel max_scrolls).1.bookmarks, t.article_text = "" := by
  refine scrollLoopAux_article feed cancel max_scrolls 1 0 ⟨[], []⟩ ?_
  intro t ht
  simp at ht

/-- C8: relative to the records the scroll loop accumulated, the final
result of collect_bookmarks has the same length, agrees position by
position on every field other than article_text (which leaves the loop
empty), and has article_text populated exactly when article fetching is
on, the run was not stopped and the record carries an article_url — in
which case it holds the fetched body, and the empty string otherwise. -/
theorem collect_bookmarks_frame
    (feed : Nat → List (Option ArtElem)) (cancel : Nat → Bool) (max_scrolls : Nat)
    (no_articles stoppedAfter : Bool) (fetchFn : String → String)
    (i : Nat) (hi : i < (scrollLoop feed cancel max_scrolls).1.bookmarks.length) :
    (collect_bookmarks feed cancel max_scrolls no_articles stoppedAfter fetchFn
        false).length = (scrollLoop feed cancel max_scrolls).1.bookmarks.length ∧
    EqExceptArticleText
      ((scrollLoop feed cancel max_scrolls).1.bookmarks.getD i default)
      ((collect_bookmarks feed cancel max_scrolls no_articles stoppedAfter fetchFn
        false).getD i default) ∧
    ((scrollLoop feed cancel max_scrolls).1.bookmarks.getD i default).article_text = "" ∧
    ((collect_bookmarks feed cancel max_scrolls no_articles stoppedAfter fetchFn
        false).getD i default).article_text =
      (if no_articles = false ∧ stoppedAfter = false ∧
          ((scrollLoop feed cancel max_scrolls).1.bookmarks.getD i default).article_url ≠ ""
        then
          fetchFn (((scrollLoop feed cancel max_scrolls).1.bookmarks.getD i
            default).article_url)
        else "") := by
  have hart := scrollLoop_article feed cancel max_scrolls
  set bs := (scrollLoop feed cancel max_scrolls).1.bookmarks with hbs
  have hgd : bs.getD i default = bs[i] := List.getD_eq_getElem bs default hi
  have hone : bs[i].article_text = "" := hart bs[i] (List.getElem_mem hi)
  simp only [collect_bookmarks, Bool.false_eq_true, if_false, applyArticles]
  by_cases hcond : no_articles = false ∧ stoppedAfter = false
  · rw [if_pos hcond]
    have hmap : ∀ g : Tweet → Tweet, (bs.map g).getD i default = g bs[i] := by
      intro g
      rw [List.getD_eq_getElem _ _ (by simpa using hi), List.getElem_map]
    rw [hmap, hgd]
    by_cases hurl : bs[i].article_url ≠ ""
    · rw [if_pos hurl]
      refine ⟨by simp, ⟨rfl, rfl, rfl, rfl, rfl, rfl, rfl, rfl⟩, hone, ?_⟩
      rw [if_pos ⟨hcond.1, hcond.2, hurl⟩]
    · rw [if_neg hurl]
      refine ⟨by simp, ⟨rfl, rfl, rfl, rfl, rfl, rfl, rfl, rfl⟩, hone, ?_⟩
      rw [if_neg (fun h => hurl h.2.2), hone]
  · rw [if_neg hcond]
    rw [hgd]
    refine ⟨rfl, ⟨rfl, rfl, rfl, rfl, rfl, rfl, rfl, rfl⟩, hone, ?_⟩
    rw [if_neg (fun h => hcond ⟨h.1, h.2.1⟩), hone]

/-- A feed element whose parse carries an article link. -/
def elemArt : ArtElem :=
  ⟨none, none, none, some (some "t"), "https://x.com/u/status/5",
    ["https://x.com/i/articles/9"], []⟩

/-- A feed presenting one article-bearing record at pass one. -/
def feedArt : Nat → List (Option ArtElem) := fun i => if i = 1 then [some elemArt] else []

/-- Witness for C8 at a concrete one-record run with article fetching
enabled. -/
theorem collect_bookmarks_frame_witness :
    (collect_bookmarks feedArt noCancel 3 false false (fun u => "BODY " ++ u)
        false).length = (scrollLoop feedArt noCancel 3).1.bookmarks.length ∧
    EqExceptArticleText
      ((scrollLoop feedArt noCancel 3).1.bookmarks.getD 0 default)
      ((collect_bookmarks feedArt noCancel 3 false false (fun u => "BODY " ++ u)
        false).getD 0 default) ∧
    ((scrollLoop feedArt noCancel 3).1.bookmarks.getD 0 default).article_text = "" ∧
    ((collect_bookmarks feedArt noCancel 3 false false (fun u => "BODY " ++ u)
        false).getD 0 default).article_text =
      (if (false : Bool) = false ∧ (false : Bool) = false ∧
          ((scrollLoop feedArt noCancel 3).1.bookmarks.getD 0 default).article_url ≠ ""
        then
          (fun u => "BODY " ++ u)
            (((scrollLoop feedArt noCancel 3).1.bookmarks.getD 0 default).article_url)
        else "") :=
  collect_bookmarks_frame feedArt noCancel 3 false false (fun u => "BODY " ++ u) 0
    (by decide)

/-- expand_tco_url: the redirect-following lookup is modelled by net; a
successful lookup returns the final URL, any failure (timeout, network
error, non-resolvable) is caught and the original URL returned. -/
def expand_tco_url (net : String → Option String) (short_url : String) : String :=
  (net short_url).getD short_url

/-- expand_urls_parallel: only URLs containing t.co/ are submitted; the
mapping is keyed by the original URL, so worker completion order is
irrelevant, and no entry can fail since expand_tco_url never raises. -/
def expand_urls_parallel (net : String → Option String) (urls : List String) :
    List (String × String) :=
  (urls.filter (fun u => containsSub "t.co/" u)).map (fun u => (u, expand_tco_url net u))

/-- Python dict get with the key itself as default, as used on the url
map in _build_rows (association-list lookup; the first binding wins,
and a missing key yields the key). -/
def mapGetD (m : List (String × String)) (u : String) : String :=
  match m with
  | [] => u
  | (k, v) :: rest => if u = k then v else mapGetD rest u

/-- The csv encoding of one record: multi-valued fields joined with the
literal separator. -/
structure CsvRow where
  timestamp : Option String
  author_name : String
  author_handle : String
  text : String
  tweet_url : String
  article_url : String
  article_text : String
  image_urls : String
  urls_expanded : String
deriving DecidableEq, Inhabited, Repr

/-- The jsonl encoding of one record: multi-valued fields kept as
sequences. -/
structure JsonRow where
  timestamp : Option String
  author_name : String
  author_handle : String
  text : String
  tweet_url : String
  article_url : String
  article_text : String
  image_urls : List String
  urls_expanded : List String
deriving DecidableEq, Inhabited, Repr

/-- The set of unique t.co links across all records, as _build_rows
gathers it. -/
def tcoPool (bookmarks : List Tweet) : List String :=
  ((bookmarks.flatMap (fun b => b.urls_raw)).filter (fun u => containsSub "t.co/" u)).dedup

def csvRowOf (url_map : List (String × String)) (b : Tweet) : CsvRow :=
  { timestamp := b.timestamp
    author_name := b.author_name
    author_handle := b.author_handle
    text := b.text
    tweet_url := b.tweet_url
    article_url := b.article_url
    article_text := b.article_text
    image_urls := String.intercalate " | " b.image_urls
    urls_expanded :=
      String.intercalate " | " (b.urls_raw.map (fun u => mapGetD url_map u)) }

def jsonRowOf (url_map : List (String × String)) (b : Tweet) : JsonRow :=
  { timestamp := b.timestamp
    author_name := b.author_name
    author_handle := b.author_handle
    text := b.text
    tweet_url := b.tweet_url
    article_url := b.article_url
    article_text := b.article_text
    image_urls := b.image_urls
    urls_expanded := b.urls_raw.map (fun u => mapGetD url_map u) }

/-- _build_rows: expand the pooled t.co links once, then substitute
positionally into each record. -/
def _build_rows (net : String → Option String) (bookmarks : List Tweet) :
    List CsvRow × List JsonRow :=
  (bookmarks.map (csvRowOf (expand_urls_parallel net (tcoPool bookmarks))),
    bookmarks.map (jsonRowOf (expand_urls_parallel net (tcoPool bookmarks))))

theorem mapGetD_map_pair (f : String → String) (l : List String) (u : String) :
    mapGetD (l.map (fun x => (x, f x))) u = if u ∈ l then f u else u := by
  induction l with
  | nil => simp [mapGetD]
  | cons a l ih =>
    simp only [List.map_cons, mapGetD]
    by_cases h : u = a
    · subst h
      simp
    · rw [if_neg h, ih]
      by_cases hm : u ∈ l
      · rw [if_pos hm, if_pos (List.mem_cons_of_mem a hm)]
      · rw [if_neg hm, if_neg (fun hc => by
          rcases List.mem_cons.mp hc with h1 | h1
          · exact h h1
          · exact hm h1)]

/-- A failed lookup leaves its URL fixed by the resolver map, whether or
not the URL was submitted. -/
theorem mapGetD_expand_fail (net : String → Option String) (urls : List String)
    (u : String) (hfail : net u = none) :
    mapGetD (expand_urls_parallel net urls) u = u := by
  unfold expand_urls_parallel
  rw [mapGetD_map_pair]
  by_cases hm : u ∈ urls.filter (fun v => containsSub "t.co/" v)
  · rw [if_pos hm]
    simp [expand_tco_url, hfail]
  · rw [if_neg hm]

/-- C4: when the redirect lookup for a URL fails, the resolver maps that
URL to itself (and the batch as a whole still produces a mapping), and
the exported urls_expanded entry of any record referencing the URL is
the URL unchanged. -/
theorem resolver_failure_preserves_url (net : String → Option String)
    (urls : List String) (u : String) (hfail : net u = none)
    (bookmarks : List Tweet) (i j : Nat) (hi : i < bookmarks.length)
    (hj : j < (bookmarks.getD i default).urls_raw.length)
    (hu : (bookmarks.getD i default).urls_raw.getD j "" = u) :
    mapGetD (expand_urls_parallel net urls) u = u ∧
    (((_build_rows net bookmarks).2.getD i default).urls_expanded).getD j "" = u := by
  refine ⟨mapGetD_expand_fail net urls u hfail, ?_⟩
  rw [List.getD_eq_getElem bookmarks default hi] at hj hu
  set M := expand_urls_parallel net (tcoPool bookmarks) with hM
  have h2 : (_build_rows net bookmarks).2 = bookmarks.map (jsonRowOf M) := rfl
  have hrow : (bookmarks.map (jsonRowOf M)).getD i default = jsonRowOf M bookmarks[i] := by
    rw [List.getD_eq_getElem (bookmarks.map (jsonRowOf M)) default (by simpa using hi)]
    exact List.getElem_map _
  rw [h2, hrow]
  have hrw : (jsonRowOf M bookmarks[i]).urls_expanded =
      (bookmarks[i].urls_raw).map (fun v => mapGetD M v) := rfl
  rw [hrw]
  have hentry : ((bookmarks[i].urls_raw).map (fun v => mapGetD M v)).getD j "" =
      mapGetD M bookmarks[i].urls_raw[j] := by
    rw [List.getD_eq_getElem ((bookmarks[i].urls_raw).map (fun v => mapGetD M v)) ""
      (by simpa using hj)]
    exact List.getElem_map _
  rw [List.getD_eq_getElem bookmarks[i].urls_raw "" hj] at hu
  rw [hentry, hu]
  exact mapGetD_expand_fail net (tcoPool bookmarks) u hfail

/-- A record referencing one t.co link. -/
def tweetTco : Tweet :=
  ⟨some "", "", "", "https://t.co/abc", "https://u/1", "", "", [], ["https://t.co/abc"]⟩

/-- Witness for C4 at a concrete record whose only raw link fails to
resolve. -/
theorem resolver_failure_preserves_url_witness :
    mapGetD (expand_urls_parallel (fun _ => none) ["https://t.co/abc"])
      "https://t.co/abc" = "https://t.co/abc" ∧
    (((_build_rows (fun _ => none) [tweetTco]).2.getD 0 default).urls_expanded).getD 0
      "" = "https://t.co/abc" :=
  resolver_failure_preserves_url (fun _ => none) ["https://t.co/abc"] "https://t.co/abc"
    rfl [tweetTco] 0 0 (by decide) (by decide) (by decide)

/-- The output files save_output opens, per the format argument. -/
def savePaths (stem fmt : String) : List String :=
  (if fmt = "csv" ∨ fmt = "both" then [stem ++ ".csv"] else []) ++
    (if fmt = "jsonl" ∨ fmt = "both" then [stem ++ ".jsonl"] else [])

/-- The bookmarks value main holds after collection and the one-time
interactive retry: the retry result counts only when the first run was
empty, the run is not headless, and the re-login succeeded. -/
def mainBookmarks (firstRun : List Tweet) (headless loginOk : Bool)
    (retryRun : List Tweet) : List Tweet :=
  if firstRun.isEmpty ∧ headless = false ∧ loginOk = true then retryRun else firstRun

/-- The files main writes: none when the final bookmarks list is empty
(main returns before save_output), else exactly those save_output
opens. -/
def mainWrites (firstRun : List Tweet) (headless loginOk : Bool) (retryRun : List Tweet)
    (stem fmt : String) : List String :=
  if (mainBookmarks firstRun headless loginOk retryRun).isEmpty then []
  else savePaths stem fmt

/-- C10: when the collection phase — retry included — produces an empty
record list, main returns without calling save_output, so no output
file is created or overwritten. -/
theorem main_empty_writes_nothing (firstRun : List Tweet) (headless loginOk : Bool)
    (retryRun : List Tweet) (stem fmt : String)
    (h : (mainBookmarks firstRun headless loginOk retryRun).isEmpty = true) :
    mainWrites firstRun headless loginOk retryRun stem fmt = [] := by
  unfold mainWrites
  rw [if_pos h]

/-- Witness for C10: a headless zero-bookmark run writes no file. -/
theorem main_empty_writes_nothing_witness :
    (mainBookmarks [] true false []).isEmpty = true ∧
    mainWrites [] true false [] "bookmarks" "csv" = [] :=
  ⟨rfl, main_empty_writes_nothing [] true false [] "bookmarks" "csv" rfl⟩

theorem charListLe_total : ∀ as bs : List Char,
    charListLe as bs = true ∨ charListLe bs as = true := by
  intro as
  induction as with
  | nil => intro bs; left; rfl
  | cons a as ih =>
    intro bs
    cases bs with
    | nil => right; rfl
    | cons b bs =>
      simp only [charListLe]
      rcases Nat.lt_trichotomy a.toNat b.toNat with h | h | h
      · left; rw [if_pos h]
      · rw [if_neg (by omega), if_pos h, if_neg (by omega), if_pos h.symm]
        exact ih bs
      · right; rw [if_pos h]

theorem charListLe_trans : ∀ as bs cs : List Char,
    charListLe as bs = true → charListLe bs cs = true → charListLe as cs = true := by
  intro as
  induction as with
  | nil => intro bs cs _ _; rfl
  | cons a as ih =>
    intro bs cs h1 h2
    cases bs with
    | nil => simp [charListLe] at h1
    | cons b bs =>
      cases cs with
      | nil => simp [charListLe] at h2
      | cons c cs =>
        simp only [charListLe] at h1 h2 ⊢
        split_ifs at h1 h2 ⊢ <;>
          first
            | rfl
            | omega
            | exact ih bs cs h1 h2

theorem sortStrings_sorted (l : List String) :
    List.Sorted (fun a b : String => strLe a b = true) (sortStrings l) := by
  unfold sortStrings
  exact @List.sorted_insertionSort String (fun a b => strLe a b = true) _
    ⟨fun a b => charListLe_total a.data b.data⟩
    ⟨fun a b c => charListLe_trans a.data b.data c.data⟩ l

theorem mem_sortStrings (l : List String) (u : String) : u ∈ sortStrings l ↔ u ∈ l :=
  (List.perm_insertionSort (fun a b : String => strLe a b = true) l).mem_iff

theorem anchorScan_raw_mem (l : List String) : ∀ a r u, u ∈ (anchorScan l a r).2 →
    u ∈ r ∨ (u ∈ l ∧ is_article_url u = false ∧ anchorRaw u = true) := by
  induction l with
  | nil => intro a r u h; exact Or.inl h
  | cons href rest ih =>
    intro a r u h
    simp only [anchorScan] at h
    by_cases hart : is_article_url href = true
    · rw [if_pos hart] at h
      rcases ih _ _ u h with h1 | h1
      · exact Or.inl h1
      · exact Or.inr ⟨List.mem_cons_of_mem _ h1.1, h1.2⟩
    · rw [if_neg hart] at h
      by_cases hraw : anchorRaw href = true
      · rw [if_pos hraw] at h
        rcases ih _ _ u h with h1 | h1
        · rcases List.mem_append.mp h1 with h2 | h2
          · exact Or.inl h2
          · simp only [List.mem_singleton] at h2
            subst h2
            exact Or.inr ⟨List.mem_cons_self _ _, by simpa using hart, hraw⟩
        · exact Or.inr ⟨List.mem_cons_of_mem _ h1.1, h1.2⟩
      · rw [if_neg hraw] at h
        rcases ih _ _ u h with h1 | h1
        · exact Or.inl h1
        · exact Or.inr ⟨List.mem_cons_of_mem _ h1.1, h1.2⟩

/-- C5 (amended): the urls_raw of a parsed record is sorted ascending by
code point, and each member either was discovered by the body-text URL
regex — which applies no domain filter, so a site-domain URL or the
article URL occurring in the text does enter urls_raw — or is an anchor
href that is not an article link and satisfies the t.co-or-foreign-
domain condition. -/
theorem parse_tweet_urls_raw_spec (e : ArtElem) :
    List.Sorted (fun a b : String => strLe a b = true) (_parse_tweet e).urls_raw ∧
    ∀ u ∈ (_parse_tweet e).urls_raw,
      u ∈ findURLs (e.text_el.getD "") ∨
        (u ∈ e.anchors ∧ is_article_url u = false ∧ anchorRaw u = true) := by
  constructor
  · exact sortStrings_sorted _
  · intro u hu
    have hmem : u ∈ (findURLs (e.text_el.getD "") ++ (anchorScan e.anchors "" []).2).dedup := by
      have : (_parse_tweet e).urls_raw =
          sortStrings ((findURLs (e.text_el.getD "") ++ (anchorScan e.anchors "" []).2).dedup) :=
        rfl
      rw [this, mem_sortStrings] at hu
      exact hu
    rw [List.mem_dedup] at hmem
    rcases List.mem_append.mp hmem with h1 | h1
    · exact Or.inl h1
    · rcases anchorScan_raw_mem e.anchors "" [] u h1 with h2 | h2
      · simp at h2
      · exact Or.inr h2

/-- The element of the C5 counterexample: its body text mentions the
article URL, which is also present as an article anchor. -/
def elemOwnDomain : ArtElem :=
  ⟨none, none, some "read https://x.com/i/articles/5 now", none, "",
    ["https://x.com/i/articles/5"], []⟩

/-- C5 counterexample: for this record the article URL — a site-domain
URL — is a member of urls_raw, entering through the body-text regex,
refuting both exclusions claimed for raw links. -/
theorem parse_tweet_urls_raw_counterexample :
    (_parse_tweet elemOwnDomain).article_url = "https://x.com/i/articles/5" ∧
    "https://x.com/i/articles/5" ∈ (_parse_tweet elemOwnDomain).urls_raw ∧
    urlNetloc "https://x.com/i/articles/5" = "x.com" := by
  decide

/-- Witness for C5 (amended) at a concrete element: the raw-link list is
sorted and its member is accounted for by the regex-or-anchor
disjunction. -/
theorem parse_tweet_urls_raw_spec_witness :
    List.Sorted (fun a b : String => strLe a b = true)
      (_parse_tweet elemOwnDomain).urls_raw ∧
    ("https://x.com/i/articles/5" ∈ findURLs (elemOwnDomain.text_el.getD "") ∨
      ("https://x.com/i/articles/5" ∈ elemOwnDomain.anchors ∧
        is_article_url "https://x.com/i/articles/5" = false ∧
        anchorRaw "https://x.com/i/articles/5" = true)) :=
  ⟨(parse_tweet_urls_raw_spec elemOwnDomain).1,
    (parse_tweet_urls_raw_spec elemOwnDomain).2 "https://x.com/i/articles/5" (by decide)⟩

theorem is_article_url_ne_empty {href : String} (h : is_article_url href = true) :
    href ≠ "" := by
  intro heq
  rw [heq] at h
  exact absurd h (by decide)

theorem anchorScan_article (l : List String) : ∀ a r,
    (anchorScan l a r).1 =
      (if a = "" then (l.find? (fun h => is_article_url h)).getD "" else a) := by
  induction l with
  | nil =>
    intro a r
    simp only [anchorScan, List.find?_nil]
    by_cases h : a = ""
    · rw [if_pos h, h]; rfl
    · rw [if_neg h]
  | cons href rest ih =>
    intro a r
    simp only [anchorScan]
    by_cases hart : is_article_url href = true
    · rw [if_pos hart, List.find?_cons_of_pos _ hart]
      by_cases h : a = ""
      · rw [if_pos h, if_pos h, ih]
        rw [if_neg (is_article_url_ne_empty hart)]
        rfl
      · rw [if_neg h, if_neg h, ih, if_neg h]
    · rw [if_neg hart, List.find?_cons_of_neg _ hart]
      by_cases hraw : anchorRaw href = true
      · rw [if_pos hraw, ih]
      · rw [if_neg hraw, ih]

/-- C6 (amended): is_article_url accepts a URL exactly when its path
contains /articles/ as a substring and its lowercased netloc merely ends
with x.com or twitter.com — a suffix test, not an equality with the site
domain, so foreign domains with that suffix also pass — and inside
_parse_tweet the first anchor classified as an article link becomes
article_url while every later article link is ignored. -/
theorem is_article_url_spec (url : String) (e : ArtElem) :
    (is_article_url url = true ↔
      ((∃ a b : List Char, a ++ "/articles/".data ++ b = (urlPath url).data) ∧
        ((∃ p : List Char, p ++ "x.com".data = (pyLower (urlNetloc url)).data) ∨
          (∃ p : List Char, p ++ "twitter.com".data = (pyLower (urlNetloc url)).data)))) ∧
    (_parse_tweet e).article_url = (e.anchors.find? (fun h => is_article_url h)).getD "" := by
  constructor
  · unfold is_article_url containsSub pyEndsWith
    simp only [Bool.and_eq_true, Bool.or_eq_true, decide_eq_true_eq]
    exact Iff.rfl
  · have : (_parse_tweet e).article_url = (anchorScan e.anchors "" []).1 := rfl
    rw [this, anchorScan_article e.anchors "" []]
    rfl

/-- C6 counterexample: a URL on the domain fakex.com — not the site
domain and not a subdomain of it — is accepted by is_article_url, since
the netloc check is a bare endswith. -/
theorem is_article_url_foreign_domain :
    is_article_url "https://fakex.com/articles/1" = true ∧
    urlNetloc "https://fakex.com/articles/1" = "fakex.com" ∧
    ("fakex.com" : String) ≠ "x.com" ∧ ("fakex.com" : String) ≠ "twitter.com" := by
  decide

/-- The fallible steps fetch_article_content performs, in program
order; none models the underlying call raising.  The selector results
distinguish raising (outer none) from finding no element (inner
none). -/
structure FetchEnv (E : Type) where
  newPage : Option Unit
  goto : Option Unit
  qsArticleBody : Option (Option E)
  qsArticle : Option (Option E)
  innerText : E → Option String
  close : Option Unit

/-- What a call of fetch_article_content did: the returned string, and
whether the auxiliary view was opened and whether it was closed. -/
structure FetchOutcome where
  result : String
  opened : Bool
  closed : Bool
deriving DecidableEq, Repr

/-- fetch_article_content: the try block opens a view, navigates,
locates the body by the primary selector or the structural fallback,
extracts the text (empty if no body), closes the view and returns the
trimmed text; any raising step jumps to the except handler, which
returns the empty string — without closing the view. -/
def fetch_article_content {E : Type} (env : FetchEnv E) : FetchOutcome :=
  match env.newPage with
  | none => ⟨"", false, false⟩
  | some _ =>
    match env.goto with
    | none => ⟨"", true, false⟩
    | some _ =>
      match env.qsArticleBody with
      | none => ⟨"", true, false⟩
      | some b0 =>
        match (match b0 with
          | some el => some (some el)
          | none => env.qsArticle) with
        | none => ⟨"", true, false⟩
        | some body =>
          match (match body with
            | none => some ""
            | some el => env.innerText el) with
          | none => ⟨"", true, false⟩
          | some text =>
            match env.close with
            | none => ⟨"", true, false⟩
            | some _ => ⟨pyStrip text, true, true⟩

/-- The condition under which every step of fetch_article_content
succeeds. -/
def fetchOk {E : Type} (env : FetchEnv E) : Bool :=
  env.newPage.isSome && env.goto.isSome &&
    (match env.qsArticleBody with
      | none => false
      | some (some el) => (env.innerText el).isSome
      | some none =>
        match env.qsArticle with
        | none => false
        | some none => true
        | some (some el) => (env.innerText el).isSome) &&
    env.close.isSome

/-- C7 (amended): fetch_article_content returns the empty string on any
failure rather than propagating it, but the auxiliary view is closed
precisely when every step — opening, navigation, body lookup, text
extraction and the close itself — succeeds: a failure after opening
leaves the view open, not closed unconditionally. -/
theorem fetch_article_content_spec {E : Type} (env : FetchEnv E) :
    (fetch_article_content env).closed = fetchOk env ∧
    ((fetch_article_content env).result = "" ∨
      (fetch_article_content env).closed = true) := by
  obtain ⟨np, gt2, qb, qa, it, cl⟩ := env
  unfold fetch_article_content fetchOk
  cases np with
  | none => simp
  | some u1 =>
    cases gt2 with
    | none => simp
    | some u2 =>
      cases qb with
      | none => simp
      | some b0 =>
        cases b0 with
        | some el =>
          cases hit : it el with
          | none => simp [hit]
          | some text =>
            cases cl with
            | none => simp [hit]
            | some u3 => simp [hit]
        | none =>
          cases qa with
          | none => simp
          | some body =>
            cases body with
            | none =>
              cases cl with
              | none => simp
              | some u3 => simp
            | some el =>
              cases hit : it el with
              | none => simp [hit]
              | some text =>
                cases cl with
                | none => simp [hit]
                | some u3 => simp [hit]

/-- The failing environment of the C7 counterexample: opening the
auxiliary view succeeds, navigation raises. -/
def fetchEnvGotoFails : FetchEnv Unit :=
  ⟨some (), none, some none, some none, fun _ => some "", some ()⟩

/-- C7 counterexample: with a successful open and a failing navigation,
fetch_article_content returns the empty string but the auxiliary view
stays open — the close is skipped, refuting the unconditional-close
claim. -/
theorem fetch_article_content_leaks_view :
    (fetch_article_content fetchEnvGotoFails).opened = true ∧
    (fetch_article_content fetchEnvGotoFails).closed = false ∧
    (fetch_article_content fetchEnvGotoFails).result = "" := by
  decide

/-- Lowercase hex digit, as the json encoder writes control escapes. -/
def hexDigLower (n : Nat) : Char :=
  if n < 10 then Char.ofNat (48 + n) else Char.ofNat (87 + n)

/-- Value of one hex digit, either case. -/
def hexVal (c : Char) : Option Nat :=
  if 48 ≤ c.toNat ∧ c.toNat ≤ 57 then some (c.toNat - 48)
  else if 97 ≤ c.toNat ∧ c.toNat ≤ 102 then some (c.toNat - 87)
  else if 65 ≤ c.toNat ∧ c.toNat ≤ 70 then some (c.toNat - 55)
  else none

/-- The escaping json.dumps applies per character with ensure_ascii
off: quote and backslash escaped, the five named control escapes, other
control characters as a four-digit hex escape, everything else
verbatim. -/
def escChar (c : Char) : List Char :=
  if c.toNat = 34 then [Char.ofNat 92, Char.ofNat 34]
  else if c.toNat = 92 then [Char.ofNat 92, Char.ofNat 92]
  else if c.toNat = 8 then [Char.ofNat 92, 'b']
  else if c.toNat = 12 then [Char.ofNat 92, 'f']
  else if c.toNat = 10 then [Char.ofNat 92, 'n']
  else if c.toNat = 13 then [Char.ofNat 92, 'r']
  else if c.toNat = 9 then [Char.ofNat 92, 't']
  else if c.toNat < 32 then
    [Char.ofNat 92, 'u', '0', '0', hexDigLower (c.toNat / 16), hexDigLower (c.toNat % 16)]
  else [c]

/-- A json string literal: quote, escaped characters, quote. -/
def renderStr (s : String) : List Char :=
  Char.ofNat 34 :: s.data.flatMap escChar ++ [Char.ofNat 34]

/-- A nullable string value: null for None, else the string literal. -/
def renderOptStr : Option String → List Char
  | none => ['n', 'u', 'l', 'l']
  | some s => renderStr s

/-- The elements of a json array of strings, separated as json.dumps
separates them. -/
def renderArrInner : List String → List Char
  | [] => []
  | [s] => renderStr s
  | s :: s2 :: t => renderStr s ++ ',' :: ' ' :: renderArrInner (s2 :: t)

/-- A json array of strings. -/
def renderArr (ss : List String) : List Char :=
  Char.ofNat 91 :: renderArrInner ss ++ [Char.ofNat 93]

/-- One object member: the key literal, colon, space, the value. -/
def renderField (key : String) (v : List Char) : List Char :=
  renderStr key ++ Char.ofNat 58 :: ' ' :: v

/-- The json.dumps serialization of one jsonl row, with the insertion
order of _build_rows and the default item and key separators. -/
def renderJsonRowChars (r : JsonRow) : List Char :=
  Char.ofNat 123 :: (renderField "timestamp" (renderOptStr r.timestamp) ++ ',' :: ' ' ::
    (renderField "author_name" (renderStr r.author_name) ++ ',' :: ' ' ::
    (renderField "author_handle" (renderStr r.author_handle) ++ ',' :: ' ' ::
    (renderField "text" (renderStr r.text) ++ ',' :: ' ' ::
    (renderField "tweet_url" (renderStr r.tweet_url) ++ ',' :: ' ' ::
    (renderField "article_url" (renderStr r.article_url) ++ ',' :: ' ' ::
    (renderField "article_text" (renderStr r.article_text) ++ ',' :: ' ' ::
    (renderField "image_urls" (renderArr r.image_urls) ++ ',' :: ' ' ::
    (renderField "urls_expanded" (renderArr r.urls_expanded) ++ [Char.ofNat 125])))))))))

/-- The line save_output writes for one record, without the trailing
newline. -/
def renderJsonRow (r : JsonRow) : String := ⟨renderJsonRowChars r⟩

/-- Single-character json escapes. -/
def parseEscaped (c : Char) : Option Char :=
  if c.toNat = 34 then some (Char.ofNat 34)
  else if c.toNat = 92 then some (Char.ofNat 92)
  else if c.toNat = 47 then some (Char.ofNat 47)
  else if c = 'b' then some (Char.ofNat 8)
  else if c = 'f' then some (Char.ofNat 12)
  else if c = 'n' then some (Char.ofNat 10)
  else if c = 'r' then some (Char.ofNat 13)
  else if c = 't' then some (Char.ofNat 9)
  else none

/-- A four-digit hex escape body after the u. -/
def decodeU : List Char → Option (Char × List Char)
  | h1 :: h2 :: h3 :: h4 :: r3 =>
    match hexVal h1, hexVal h2, hexVal h3, hexVal h4 with
    | some v1, some v2, some v3, some v4 =>
      some (Char.ofNat (((v1 * 16 + v2) * 16 + v3) * 16 + v4), r3)
    | _, _, _, _ => none
  | _ => none

/-- What follows a backslash in a json string: a hex escape or a
single-character escape; returns the decoded character and the rest. -/
def decodeEsc : List Char → Option (Char × List Char)
  | [] => none
  | e :: r2 =>
    if e = 'u' then decodeU r2
    else
      match parseEscaped e with
      | some d => some (d, r2)
      | none => none

/-- Body of a json string literal after the opening quote, decoding
escapes up to the closing quote; fuel bounds the number of decoded
characters and any value above the input length is enough. -/
def parseStrBody : Nat → List Char → Option (List Char × List Char)
  | _, [] => none
  | 0, _ :: _ => none
  | fuel + 1, c :: r =>
    if c.toNat = 34 then some ([], r)
    else if c.toNat = 92 then
      match decodeEsc r with
      | none => none
      | some (d, r2) => (parseStrBody fuel r2).map (fun p => (d :: p.1, p.2))
    else (parseStrBody fuel r).map (fun p => (c :: p.1, p.2))

/-- A json string literal, opening quote included. -/
def parseJString (cs : List Char) : Option (String × List Char) :=
  match cs with
  | [] => none
  | c :: r =>
    if c.toNat = 34 then (parseStrBody (r.length + 1) r).map (fun p => (⟨p.1⟩, p.2))
    else none

/-- The tail of the null literal. -/
def parseNull : List Char → Option (Option String × List Char)
  | 'u' :: 'l' :: 'l' :: r2 => some (none, r2)
  | _ => none

/-- A json string or the null literal. -/
def parseNullableStr (cs : List Char) : Option (Option String × List Char) :=
  match cs with
  | [] => none
  | c :: r =>
    if c = 'n' then parseNull r
    else (parseJString (c :: r)).map (fun p => (some p.1, p.2))

/-- The elements of a nonempty json array of strings, after the opening
bracket; fuel bounds the number of elements. -/
def parseArrElems : Nat → List Char → Option (List String × List Char)
  | _, [] => none
  | 0, _ :: _ => none
  | fuel + 1, c :: r =>
    if c.toNat = 34 then
      match parseStrBody (r.length + 1) r with
      | none => none
      | some (s, r2) =>
        match r2 with
        | [] => none
        | d :: r3 =>
          if d.toNat = 93 then some ([⟨s⟩], r3)
          else if d.toNat = 44 then
            match r3 with
            | [] => none
            | sp :: r4 =>
              if sp = ' ' then (parseArrElems fuel r4).map (fun p => (⟨s⟩ :: p.1, p.2))
              else none
          else none
    else none

/-- A json array of strings, after the opening bracket. -/
def parseArr (cs : List Char) : Option (List String × List Char) :=
  match cs with
  | [] => none
  | c :: r =>
    if c.toNat = 93 then some ([], r)
    else parseArrElems (c :: r).length (c :: r)

/-- The colon-space key separator. -/
def expectColon : List Char → Option (List Char)
  | c :: d :: r2 => if c.toNat = 58 ∧ d = ' ' then some r2 else none
  | _ => none

/-- The comma-space item separator. -/
def expectSep : List Char → Option (List Char)
  | c :: d :: r2 => if c.toNat = 44 ∧ d = ' ' then some r2 else none
  | _ => none

/-- The opening bracket of an array value. -/
def expectBracket : List Char → Option (List Char)
  | [] => none
  | c :: r2 => if c.toNat = 91 then some r2 else none

/-- The closing brace of the object. -/
def expectCloseBrace : List Char → Option (List Char)
  | [] => none
  | c :: r2 => if c.toNat = 125 then some r2 else none

/-- One object key with its separator: the key string literal, colon,
space; yields the input at the value. -/
def parseKeyed (key : String) (cs : List Char) : Option (List Char) :=
  match parseJString cs with
  | none => none
  | some (k, r) => if k = key then expectColon r else none

/-- A string-valued member. -/
def parseStrField (key : String) (cs : List Char) : Option (String × List Char) :=
  (parseKeyed key cs).bind (fun r => parseJString r)

/-- An array-valued member. -/
def parseArrField (key : String) (cs : List Char) : Option (List String × List Char) :=
  (parseKeyed key cs).bind (fun r => (expectBracket r).bind (fun r2 => parseArr r2))

/-- Members one to three of the row object: timestamp (nullable),
author_name, author_handle, each with its trailing item separator. -/
def parseRowPart1 (cs : List Char) :
    Option ((Option String × String × String) × List Char) :=
  (parseKeyed "timestamp" cs).bind fun (r0 : List Char) =>
  (parseNullableStr r0).bind fun (p1 : Option String × List Char) =>
  (expectSep p1.2).bind fun (r1 : List Char) =>
  (parseStrField "author_name" r1).bind fun (p2 : String × List Char) =>
  (expectSep p2.2).bind fun (r2 : List Char) =>
  (parseStrField "author_handle" r2).bind fun (p3 : String × List Char) =>
  (expectSep p3.2).map fun (r3 : List Char) => ((p1.1, p2.1, p3.1), r3)

/-- Members four to seven of the row object: text, tweet_url,
article_url, article_text, each with its trailing item separator. -/
def parseRowPart2 (cs : List Char) :
    Option ((String × String × String × String) × List Char) :=
  (parseStrField "text" cs).bind fun (p4 : String × List Char) =>
  (expectSep p4.2).bind fun (r4 : List Char) =>
  (parseStrField "tweet_url" r4).bind fun (p5 : String × List Char) =>
  (expectSep p5.2).bind fun (r5 : List Char) =>
  (parseStrField "article_url" r5).bind fun (p6 : String × List Char) =>
  (expectSep p6.2).bind fun (r6 : List Char) =>
  (parseStrField "article_text" r6).bind fun (p7 : String × List Char) =>
  (expectSep p7.2).map fun (r7 : List Char) => ((p4.1, p5.1, p6.1, p7.1), r7)

/-- The two array members and the closing brace. -/
def parseRowPart3 (cs : List Char) :
    Option ((List String × List String) × List Char) :=
  (parseArrField "image_urls" cs).bind fun (p8 : List String × List Char) =>
  (expectSep p8.2).bind fun (r8 : List Char) =>
  (parseArrField "urls_expanded" r8).bind fun (p9 : List String × List Char) =>
  (expectCloseBrace p9.2).map fun (r9 : List Char) => ((p8.1, p9.1), r9)

/-- A json parser for the object shape save_output emits per line: the
nine members in their fixed order, the first nullable, the last two
arrays of strings. -/
def parseJsonRow (cs : List Char) : Option (JsonRow × List Char) :=
  match cs with
  | [] => none
  | c :: r =>
    if c.toNat = 123 then
      (parseRowPart1 r).bind fun (a : (Option String × String × String) × List Char) =>
      (parseRowPart2 a.2).bind fun (b : (String × String × String × String) × List Char) =>
      (parseRowPart3 b.2).map fun (d : (List String × List String) × List Char) =>
        ((⟨a.1.1, a.1.2.1, a.1.2.2, b.1.1, b.1.2.1, b.1.2.2.1, b.1.2.2.2, d.1.1, d.1.2⟩ :
          JsonRow), d.2)
    else none


theorem hexVal_hexDigLower : ∀ n, n < 16 → hexVal (hexDigLower n) = some n := by
  decide

theorem escChar_ne_nil (c : Char) : 1 ≤ (escChar c).length := by
  unfold escChar
  split_ifs <;> simp

theorem length_le_flatMap_escChar (cs : List Char) :
    cs.length ≤ (cs.flatMap escChar).length := by
  induction cs with
  | nil => simp
  | cons c cs ih =>
    simp only [List.flatMap_cons, List.length_cons, List.length_append]
    have := escChar_ne_nil c
    omega

theorem decodeEsc_single (e d : Char) (r : List Char) (hne : ¬ e = 'u')
    (hd : parseEscaped e = some d) : decodeEsc (e :: r) = some (d, r) := by
  show (if e = 'u' then decodeU r
    else
      match parseEscaped e with
      | some d2 => some (d2, r)
      | none => none) = some (d, r)
  rw [if_neg hne, hd]

theorem decodeEsc_u (h1 h2 h3 h4 : Char) (v1 v2 v3 v4 : Nat) (r : List Char)
    (e1 : hexVal h1 = some v1) (e2 : hexVal h2 = some v2) (e3 : hexVal h3 = some v3)
    (e4 : hexVal h4 = some v4) :
    decodeEsc ('u' :: h1 :: h2 :: h3 :: h4 :: r) =
      some (Char.ofNat (((v1 * 16 + v2) * 16 + v3) * 16 + v4), r) := by
  show (if ('u' : Char) = 'u' then decodeU (h1 :: h2 :: h3 :: h4 :: r)
    else
      match parseEscaped 'u' with
      | some d2 => some (d2, h1 :: h2 :: h3 :: h4 :: r)
      | none => none) =
    some (Char.ofNat (((v1 * 16 + v2) * 16 + v3) * 16 + v4), r)
  rw [if_pos rfl]
  show (match hexVal h1, hexVal h2, hexVal h3, hexVal h4 with
    | some w1, some w2, some w3, some w4 =>
      some (Char.ofNat (((w1 * 16 + w2) * 16 + w3) * 16 + w4), r)
    | _, _, _, _ => none) =
    some (Char.ofNat (((v1 * 16 + v2) * 16 + v3) * 16 + v4), r)
  rw [e1, e2, e3, e4]

theorem parseStrBody_step_esc (f : Nat) (d c2 : Char) (r : List Char)
    (hne : ¬ d = 'u') (hd : parseEscaped d = some c2) :
    parseStrBody (f + 1) (Char.ofNat 92 :: d :: r) =
      (parseStrBody f r).map (fun p => (c2 :: p.1, p.2)) := by
  rw [parseStrBody]
  rw [if_neg (by decide), if_pos (by decide), decodeEsc_single d c2 r hne hd]

theorem parseStrBody_step_u (f : Nat) (h1 h2 h3 h4 : Char) (v1 v2 v3 v4 : Nat)
    (r : List Char) (e1 : hexVal h1 = some v1) (e2 : hexVal h2 = some v2)
    (e3 : hexVal h3 = some v3) (e4 : hexVal h4 = some v4) :
    parseStrBody (f + 1) (Char.ofNat 92 :: 'u' :: h1 :: h2 :: h3 :: h4 :: r) =
      (parseStrBody f r).map (fun p =>
        (Char.ofNat (((v1 * 16 + v2) * 16 + v3) * 16 + v4) :: p.1, p.2)) := by
  rw [parseStrBody]
  rw [if_neg (by decide), if_pos (by decide), decodeEsc_u h1 h2 h3 h4 v1 v2 v3 v4 r e1 e2 e3 e4]

theorem parseStrBody_step_plain (f : Nat) (c : Char) (r : List Char)
    (h1 : ¬ c.toNat = 34) (h2 : ¬ c.toNat = 92) :
    parseStrBody (f + 1) (c :: r) = (parseStrBody f r).map (fun p => (c :: p.1, p.2)) := by
  rw [parseStrBody]
  rw [if_neg h1, if_neg h2]

theorem parseStrBody_round (cs : List Char) : ∀ fuel rest, cs.length < fuel →
    parseStrBody fuel (cs.flatMap escChar ++ Char.ofNat 34 :: rest) = some (cs, rest) := by
  induction cs with
  | nil =>
    intro fuel rest hf
    obtain ⟨f, rfl⟩ : ∃ f, fuel = f + 1 := ⟨fuel - 1, by omega⟩
    rw [List.flatMap_nil, List.nil_append, parseStrBody, if_pos (by decide)]
  | cons c cs ih =>
    intro fuel rest hf
    obtain ⟨f, rfl⟩ : ∃ f, fuel = f + 1 := ⟨fuel - 1, by omega⟩
    have hfc : cs.length < f := by simp at hf; omega
    rw [List.flatMap_cons, List.append_assoc]
    by_cases h34 : c.toNat = 34
    · have hc : Char.ofNat 34 = c := by rw [← h34, Char.ofNat_toNat]
      have hesc : escChar c = [Char.ofNat 92, Char.ofNat 34] := by
        unfold escChar
        rw [if_pos h34]
      rw [hesc]
      simp only [List.cons_append, List.nil_append]
      rw [parseStrBody_step_esc f (Char.ofNat 34) (Char.ofNat 34) _ (by decide) (by decide),
        ih f rest hfc]
      simp only [Option.map_some']
      rw [hc]
    · by_cases h92 : c.toNat = 92
      · have hc : Char.ofNat 92 = c := by rw [← h92, Char.ofNat_toNat]
        have hesc : escChar c = [Char.ofNat 92, Char.ofNat 92] := by
          unfold escChar
          rw [if_neg h34, if_pos h92]
        rw [hesc]
        simp only [List.cons_append, List.nil_append]
        rw [parseStrBody_step_esc f (Char.ofNat 92) (Char.ofNat 92) _ (by decide) (by decide),
          ih f rest hfc]
        simp only [Option.map_some']
        rw [hc]
      · by_cases h8 : c.toNat = 8
        · have hc : Char.ofNat 8 = c := by rw [← h8, Char.ofNat_toNat]
          have hesc : escChar c = [Char.ofNat 92, 'b'] := by
            unfold escChar
            rw [if_neg h34, if_neg h92, if_pos h8]
          rw [hesc]
          simp only [List.cons_append, List.nil_append]
          rw [parseStrBody_step_esc f 'b' (Char.ofNat 8) _ (by decide) (by decide),
            ih f rest hfc]
          simp only [Option.map_some']
          rw [hc]
        · by_cases h12 : c.toNat = 12
          · have hc : Char.ofNat 12 = c := by rw [← h12, Char.ofNat_toNat]
            have hesc : escChar c = [Char.ofNat 92, 'f'] := by
              unfold escChar
              rw [if_neg h34, if_neg h92, if_neg h8, if_pos h12]
            rw [hesc]
            simp only [List.cons_append, List.nil_append]
            rw [parseStrBody_step_esc f 'f' (Char.ofNat 12) _ (by decide) (by decide),
              ih f rest hfc]
            simp only [Option.map_some']
            rw [hc]
          · by_cases h10 : c.toNat = 10
            · have hc : Char.ofNat 10 = c := by rw [← h10, Char.ofNat_toNat]
              have hesc : escChar c = [Char.ofNat 92, 'n'] := by
                unfold escChar
                rw [if_neg h34, if_neg h92, if_neg h8, if_neg h12, if_pos h10]
              rw [hesc]
              simp only [List.cons_append, List.nil_append]
              rw [parseStrBody_step_esc f 'n' (Char.ofNat 10) _ (by decide) (by decide),
                ih f rest hfc]
              simp only [Option.map_some']
              rw [hc]
            · by_cases h13 : c.toNat = 13
              · have hc : Char.ofNat 13 = c := by rw [← h13, Char.ofNat_toNat]
                have hesc : escChar c = [Char.ofNat 92, 'r'] := by
                  unfold escChar
                  rw [if_neg h34, if_neg h92, if_neg h8, if_neg h12, if_neg h10, if_pos h13]
                rw [hesc]
                simp only [List.cons_append, List.nil_append]
                rw [parseStrBody_step_esc f 'r' (Char.ofNat 13) _ (by decide) (by decide),
                  ih f rest hfc]
                simp only [Option.map_some']
                rw [hc]
              · by_cases h9 : c.toNat = 9
                · have hc : Char.ofNat 9 = c := by rw [← h9, Char.ofNat_toNat]
                  have hesc : escChar c = [Char.ofNat 92, 't'] := by
                    unfold escChar
                    rw [if_neg h34, if_neg h92, if_neg h8, if_neg h12, if_neg h10, if_neg h13,
                      if_pos h9]
                  rw [hesc]
                  simp only [List.cons_append, List.nil_append]
                  rw [parseStrBody_step_esc f 't' (Char.ofNat 9) _ (by decide) (by decide),
                    ih f rest hfc]
                  simp only [Option.map_some']
                  rw [hc]
                · by_cases h32 : c.toNat < 32
                  · have hesc : escChar c = [Char.ofNat 92, 'u', '0', '0',
                        hexDigLower (c.toNat / 16), hexDigLower (c.toNat % 16)] := by
                      unfold escChar
                      rw [if_neg h34, if_neg h92, if_neg h8, if_neg h12, if_neg h10,
                        if_neg h13, if_neg h9, if_pos h32]
                    rw [hesc]
                    simp only [List.cons_append, List.nil_append]
                    rw [parseStrBody_step_u f '0' '0' (hexDigLower (c.toNat / 16))
                      (hexDigLower (c.toNat % 16)) 0 0 (c.toNat / 16) (c.toNat % 16) _
                      (by decide) (by decide)
                      (hexVal_hexDigLower (c.toNat / 16) (by omega))
                      (hexVal_hexDigLower (c.toNat % 16) (by omega)),
                      ih f rest hfc]
                    have hval : ((0 * 16 + 0) * 16 + c.toNat / 16) * 16 + c.toNat % 16 =
                        c.toNat := by omega
                    rw [hval, Char.ofNat_toNat]
                    simp
                  · have hesc : escChar c = [c] := by
                      unfold escChar
                      rw [if_neg h34, if_neg h92, if_neg h8, if_neg h12, if_neg h10,
                        if_neg h13, if_neg h9, if_neg h32]
                    rw [hesc]
                    simp only [List.cons_append, List.nil_append]
                    rw [parseStrBody_step_plain f c _ h34 h92, ih f rest hfc]
                    simp

theorem parseJString_round (s : String) (rest : List Char) :
    parseJString (renderStr s ++ rest) = some (s, rest) := by
  have hshape : renderStr s ++ rest =
      Char.ofNat 34 :: (s.data.flatMap escChar ++ Char.ofNat 34 :: rest) := by
    simp [renderStr]
  rw [hshape]
  show (if (Char.ofNat 34).toNat = 34 then
      (parseStrBody ((s.data.flatMap escChar ++ Char.ofNat 34 :: rest).length + 1)
        (s.data.flatMap escChar ++ Char.ofNat 34 :: rest)).map
        (fun p => ((⟨p.1⟩ : String), p.2))
    else none) = some (s, rest)
  rw [if_pos (by decide)]
  rw [parseStrBody_round s.data _ rest (by
    have := length_le_flatMap_escChar s.data
    simp only [List.length_append, List.length_cons]
    omega)]
  rfl

theorem parseNullableStr_round (o : Option String) (rest : List Char) :
    parseNullableStr (renderOptStr o ++ rest) = some (o, rest) := by
  cases o with
  | none =>
    show parseNullableStr ('n' :: 'u' :: 'l' :: 'l' :: rest) = some (none, rest)
    show (if ('n' : Char) = 'n' then parseNull ('u' :: 'l' :: 'l' :: rest)
      else (parseJString ('n' :: 'u' :: 'l' :: 'l' :: rest)).map
        (fun p => (some p.1, p.2))) = some (none, rest)
    rw [if_pos rfl]
    rfl
  | some s =>
    have hshape : renderOptStr (some s) ++ rest =
        Char.ofNat 34 :: (s.data.flatMap escChar ++ Char.ofNat 34 :: rest) := by
      simp [renderOptStr, renderStr]
    rw [hshape]
    show (if (Char.ofNat 34) = 'n' then
        parseNull (s.data.flatMap escChar ++ Char.ofNat 34 :: rest)
      else (parseJString (Char.ofNat 34 ::
          (s.data.flatMap escChar ++ Char.ofNat 34 :: rest))).map
        (fun p => (some p.1, p.2))) = some (some s, rest)
    rw [if_neg (by decide)]
    have h2 : Char.ofNat 34 :: (s.data.flatMap escChar ++ Char.ofNat 34 :: rest) =
        renderStr s ++ rest := by
      simp [renderStr]
    rw [h2, parseJString_round]
    rfl

theorem expectColon_round (rest : List Char) :
    expectColon (Char.ofNat 58 :: ' ' :: rest) = some rest := by
  show (if (Char.ofNat 58).toNat = 58 ∧ (' ' : Char) = ' ' then some rest else none) =
    some rest
  rw [if_pos ⟨by decide, rfl⟩]

theorem expectSep_round (rest : List Char) :
    expectSep (',' :: ' ' :: rest) = some rest := by
  show (if (',' : Char).toNat = 44 ∧ (' ' : Char) = ' ' then some rest else none) =
    some rest
  rw [if_pos ⟨by decide, rfl⟩]

theorem expectBracket_round (rest : List Char) :
    expectBracket (Char.ofNat 91 :: rest) = some rest := by
  show (if (Char.ofNat 91).toNat = 91 then some rest else none) = some rest
  rw [if_pos (by decide)]

theorem expectCloseBrace_round (rest : List Char) :
    expectCloseBrace (Char.ofNat 125 :: rest) = some rest := by
  show (if (Char.ofNat 125).toNat = 125 then some rest else none) = some rest
  rw [if_pos (by decide)]

theorem parseKeyed_round (key : String) (v rest : List Char) :
    parseKeyed key (renderField key v ++ rest) = some (v ++ rest) := by
  have hshape : renderField key v ++ rest =
      renderStr key ++ (Char.ofNat 58 :: ' ' :: (v ++ rest)) := by
    simp [renderField]
  rw [parseKeyed, hshape, parseJString_round]
  show (if key = key then expectColon (Char.ofNat 58 :: ' ' :: (v ++ rest)) else none) =
    some (v ++ rest)
  rw [if_pos rfl, expectColon_round]

theorem parseStrField_round (key s : String) (rest : List Char) :
    parseStrField key (renderField key (renderStr s) ++ rest) = some (s, rest) := by
  rw [parseStrField, parseKeyed_round]
  show parseJString (renderStr s ++ rest) = some (s, rest)
  exact parseJString_round s rest

theorem renderStr_length (s : String) : 2 ≤ (renderStr s).length := by
  simp [renderStr]

theorem renderArrInner_length : ∀ ss : List String,
    ss.length ≤ (renderArrInner ss).length := by
  intro ss
  induction ss with
  | nil => simp [renderArrInner]
  | cons s t ih =>
    cases t with
    | nil =>
      have := renderStr_length s
      simp [renderArrInner]
      omega
    | cons s2 t2 =>
      have h1 := renderStr_length s
      simp only [renderArrInner, List.length_append, List.length_cons] at ih ⊢
      omega

theorem parseArrElems_round (ss : List String) (hne : ss ≠ []) : ∀ fuel rest,
    ss.length ≤ fuel →
    parseArrElems fuel (renderArrInner ss ++ Char.ofNat 93 :: rest) = some (ss, rest) := by
  induction ss with
  | nil => exact absurd rfl hne
  | cons s t ih =>
    intro fuel rest hf
    obtain ⟨f, rfl⟩ : ∃ f, fuel = f + 1 := ⟨fuel - 1, by
      simp only [List.length_cons] at hf
      omega⟩
    cases t with
    | nil =>
      have hshape : renderArrInner [s] ++ Char.ofNat 93 :: rest =
          Char.ofNat 34 ::
            (s.data.flatMap escChar ++ Char.ofNat 34 :: (Char.ofNat 93 :: rest)) := by
        simp [renderArrInner, renderStr]
      rw [hshape, parseArrElems]
      rw [if_pos (by decide)]
      rw [parseStrBody_round s.data _ (Char.ofNat 93 :: rest) (by
        have := length_le_flatMap_escChar s.data
        simp only [List.length_append, List.length_cons]
        omega)]
      show (if (Char.ofNat 93).toNat = 93 then some ([(⟨s.data⟩ : String)], rest)
        else if (Char.ofNat 93).toNat = 44 then
          match rest with
          | [] => none
          | sp :: r4 =>
            if sp = ' ' then
              (parseArrElems f r4).map (fun p => ((⟨s.data⟩ : String) :: p.1, p.2))
            else none
        else none) = some ([s], rest)
      rw [if_pos (by decide)]
    | cons s2 t2 =>
      have hshape : renderArrInner (s :: s2 :: t2) ++ Char.ofNat 93 :: rest =
          Char.ofNat 34 :: (s.data.flatMap escChar ++ Char.ofNat 34 ::
            (',' :: ' ' :: (renderArrInner (s2 :: t2) ++ Char.ofNat 93 :: rest))) := by
        simp [renderArrInner, renderStr]
      rw [hshape, parseArrElems]
      rw [if_pos (by decide)]
      rw [parseStrBody_round s.data _
        (',' :: ' ' :: (renderArrInner (s2 :: t2) ++ Char.ofNat 93 :: rest)) (by
          have := length_le_flatMap_escChar s.data
          simp only [List.length_append, List.length_cons]
          omega)]
      show (if (',' : Char).toNat = 93 then
          some ([(⟨s.data⟩ : String)],
            ' ' :: (renderArrInner (s2 :: t2) ++ Char.ofNat 93 :: rest))
        else if (',' : Char).toNat = 44 then
          match ' ' :: (renderArrInner (s2 :: t2) ++ Char.ofNat 93 :: rest) with
          | [] => none
          | sp :: r4 =>
            if sp = ' ' then
              (parseArrElems f r4).map (fun p => ((⟨s.data⟩ : String) :: p.1, p.2))
            else none
        else none) = some (s :: s2 :: t2, rest)
      rw [if_neg (by decide), if_pos (by decide)]
      show (if (' ' : Char) = ' ' then
          (parseArrElems f (renderArrInner (s2 :: t2) ++ Char.ofNat 93 :: rest)).map
            (fun p => ((⟨s.data⟩ : String) :: p.1, p.2))
        else none) = some (s :: s2 :: t2, rest)
      rw [if_pos rfl, ih (by simp) f rest (by
        simp only [List.length_cons] at hf ⊢
        omega)]
      rfl

theorem parseArr_round (ss : List String) (rest : List Char) :
    parseArr (renderArrInner ss ++ Char.ofNat 93 :: rest) = some (ss, rest) := by
  cases ss with
  | nil =>
    show parseArr (Char.ofNat 93 :: rest) = some ([], rest)
    show (if (Char.ofNat 93).toNat = 93 then some (([] : List String), rest)
      else parseArrElems (Char.ofNat 93 :: rest).length (Char.ofNat 93 :: rest)) =
      some ([], rest)
    rw [if_pos (by decide)]
  | cons s t =>
    obtain ⟨X, hX⟩ : ∃ X, renderArrInner (s :: t) = Char.ofNat 34 :: X := by
      cases t with
      | nil =>
        exact ⟨s.data.flatMap escChar ++ [Char.ofNat 34],
          by simp [renderArrInner, renderStr]⟩
      | cons s2 t2 =>
        exact ⟨s.data.flatMap escChar ++
          Char.ofNat 34 :: ',' :: ' ' :: renderArrInner (s2 :: t2),
          by simp [renderArrInner, renderStr]⟩
    have hre : renderArrInner (s :: t) ++ Char.ofNat 93 :: rest =
        Char.ofNat 34 :: (X ++ Char.ofNat 93 :: rest) := by
      rw [hX]
      simp
    rw [hre]
    show (if (Char.ofNat 34).toNat = 93 then
        some (([] : List String), X ++ Char.ofNat 93 :: rest)
      else parseArrElems (Char.ofNat 34 :: (X ++ Char.ofNat 93 :: rest)).length
        (Char.ofNat 34 :: (X ++ Char.ofNat 93 :: rest))) = some (s :: t, rest)
    rw [if_neg (by decide), ← hre]
    refine parseArrElems_round (s :: t) (by simp) _ rest ?_
    have h1 := renderArrInner_length (s :: t)
    simp only [List.length_append, List.length_cons] at h1 ⊢
    omega

theorem parseArrField_round (key : String) (ss : List String) (rest : List Char) :
    parseArrField key (renderField key (renderArr ss) ++ rest) = some (ss, rest) := by
  rw [parseArrField, parseKeyed_round]
  have hshape : renderArr ss ++ rest =
      Char.ofNat 91 :: (renderArrInner ss ++ Char.ofNat 93 :: rest) := by
    simp [renderArr]
  show (expectBracket (renderArr ss ++ rest)).bind (fun r2 => parseArr r2) = some (ss, rest)
  rw [hshape, expectBracket_round]
  show parseArr (renderArrInner ss ++ Char.ofNat 93 :: rest) = some (ss, rest)
  exact parseArr_round ss rest

theorem parseRowPart1_round (ts : Option String) (an ah : String) (rest : List Char) :
    parseRowPart1 (renderField "timestamp" (renderOptStr ts) ++ ',' :: ' ' ::
      (renderField "author_name" (renderStr an) ++ ',' :: ' ' ::
      (renderField "author_handle" (renderStr ah) ++ ',' :: ' ' :: rest))) =
      some ((ts, an, ah), rest) := by
  rw [parseRowPart1, parseKeyed_round]
  simp only [Option.some_bind, parseNullableStr_round, expectSep_round,
    parseStrField_round, Option.map_some']

theorem parseRowPart2_round (tx tu au at2 : String) (rest : List Char) :
    parseRowPart2 (renderField "text" (renderStr tx) ++ ',' :: ' ' ::
      (renderField "tweet_url" (renderStr tu) ++ ',' :: ' ' ::
      (renderField "article_url" (renderStr au) ++ ',' :: ' ' ::
      (renderField "article_text" (renderStr at2) ++ ',' :: ' ' :: rest)))) =
      some ((tx, tu, au, at2), rest) := by
  rw [parseRowPart2]
  simp only [Option.some_bind, expectSep_round, parseStrField_round, Option.map_some']

theorem parseRowPart3_round (im ue : List String) (rest : List Char) :
    parseRowPart3 (renderField "image_urls" (renderArr im) ++ ',' :: ' ' ::
      (renderField "urls_expanded" (renderArr ue) ++ Char.ofNat 125 :: rest)) =
      some ((im, ue), rest) := by
  rw [parseRowPart3]
  simp only [Option.some_bind, expectSep_round, parseArrField_round,
    expectCloseBrace_round, Option.map_some']

theorem parseJsonRow_round (r : JsonRow) :
    parseJsonRow (renderJsonRow r).data = some (r, []) := by
  obtain ⟨ts, an, ah, tx, tu, au, at2, im, ue⟩ := r
  show parseJsonRow (renderJsonRowChars ⟨ts, an, ah, tx, tu, au, at2, im, ue⟩) =
    some (⟨ts, an, ah, tx, tu, au, at2, im, ue⟩, [])
  simp only [renderJsonRowChars, parseJsonRow]
  rw [if_pos (by decide)]
  rw [parseRowPart1_round]
  simp only [Option.some_bind]
  rw [parseRowPart2_round]
  simp only [Option.some_bind]
  rw [parseRowPart3_round]
  simp only [Option.map_some']

/-- C9: the jsonl export round-trips.  For any row _build_rows builds,
serializing it as save_output does — the json encoding of the object
with its nine members in fixed order, one object per line — and then
parsing that line with a json parser reproduces every field value
exactly, empty-string scalars and empty arrays included. -/
theorem jsonl_round_trip (net : String → Option String) (bookmarks : List Tweet)
    (row : JsonRow) (_hrow : row ∈ (_build_rows net bookmarks).2) :
    parseJsonRow (renderJsonRow row).data = some (row, []) :=
  parseJsonRow_round row

/-- Witness for C9 at the concrete jsonl row of a one-record run whose
only raw link does not resolve. -/
theorem jsonl_round_trip_witness :
    parseJsonRow (renderJsonRow (jsonRowOf
      (expand_urls_parallel (fun _ => none) (tcoPool [tweetTco])) tweetTco)).data =
      some (jsonRowOf (expand_urls_parallel (fun _ => none) (tcoPool [tweetTco]))
        tweetTco, []) :=
  jsonl_round_trip (fun _ => none) [tweetTco] _ (by decide)

end TwitterScraper
